import Mathlib

/-!
Shallow embedding of the LinuxBoy pipeline core, translated from the Rust
source (src/core/runtime_manager.rs, src/core/capsule.rs,
src/core/umu_database.rs, src/ui/main_window.rs).  Machine integers (u64,
i32) are modelled as Nat / Int: every arithmetic value in scope (file
sizes, scores bounded by a few hundred) is far below any overflow
threshold.  Filesystem and network effects are modelled by explicit state
records; fallible operations return Option / Except or an outcome type.
-/

set_option maxRecDepth 4096

namespace LinuxBoy

/-! ### Generic character and string helpers (ASCII semantics of the Rust std) -/

/-- Rust u8::is_ascii_graphic: printable, U+0021 ..= U+007E. -/
def isAsciiGraphicB (b : Nat) : Bool :=
  33 ≤ b && b ≤ 126

/-- Rust u8::is_ascii_alphabetic. -/
def isAsciiAlphaB (b : Nat) : Bool :=
  (65 ≤ b && b ≤ 90) || (97 ≤ b && b ≤ 122)

/-- Rust u8::is_ascii_alphanumeric. -/
def isAsciiAlnumB (b : Nat) : Bool :=
  isAsciiAlphaB b || (48 ≤ b && b ≤ 57)

/-- Rust u8::to_ascii_lowercase on a byte. -/
def lowerByte (b : Nat) : Nat :=
  if 65 ≤ b && b ≤ 90 then b + 32 else b

/-- Rust char::is_ascii_alphanumeric. -/
def isAsciiAlnumC (c : Char) : Bool :=
  isAsciiAlnumB c.toNat

/-- Rust char::to_ascii_lowercase (and char::to_lowercase restricted to the
ASCII characters the callers feed it). -/
def lowerChar (c : Char) : Char :=
  if 65 ≤ c.toNat && c.toNat ≤ 90 then Char.ofNat (c.toNat + 32) else c

/-- ASCII lowercasing of a whole string, Rust str::to_ascii_lowercase. -/
def lowerStr (s : String) : String :=
  String.mk (s.data.map lowerChar)

/-- Rust str::eq_ignore_ascii_case. -/
def eqIgnoreAsciiCase (a b : String) : Bool :=
  lowerStr a = lowerStr b

/-- Containment of one character sequence inside another, Rust str::contains
with a literal pattern. -/
def containsSeq (needle : List Char) : List Char → Bool
  | [] => needle.isPrefixOf []
  | c :: t => if needle.isPrefixOf (c :: t) then true else containsSeq needle t

/-- Rust str::contains (literal needle). -/
def strContains (hay needle : String) : Bool :=
  containsSeq needle.data hay.data

/-- Rust str::starts_with (literal needle). -/
def strStartsWith (hay pre : String) : Bool :=
  pre.data.isPrefixOf hay.data

/-- Characters of a file name strictly before its last dot, when that prefix
is nonempty; mirrors the split Rust Path::file_stem / extension performs. -/
def lastDotSplit : List Char → Option (List Char)
  | [] => none
  | c :: t =>
    match lastDotSplit t with
    | some r => some (c :: r)
    | none => if c = '.' then some [] else none

/-- Rust Path::file_stem applied to a file name: the portion before the last
dot, except that a name whose only dot is the leading one is returned whole. -/
def fileStem (name : String) : String :=
  match lastDotSplit name.data with
  | some r => if r.isEmpty then name else String.mk r
  | none => name

/-- Rust Path::extension applied to a file name. -/
def fileExt (name : String) : Option String :=
  match lastDotSplit name.data with
  | some r =>
    if r.isEmpty then none
    else some (String.mk (name.data.drop (r.length + 1)))
  | none => none

/-! ### ShortcutPathScanner (main_window.rs, extract_ascii_sequences /
extract_utf16le_sequences / extract_windows_paths_from_text /
extract_windows_exe_paths_from_lnk).  Byte buffers are `List Nat`; the Rust
code converts recovered runs with String::from_utf8_lossy, which is the
identity on the printable-ASCII runs recovered here, so sequences stay byte
lists. -/

/-- Emit a finished run when it has reached the minimum length 6. -/
def flushSeq (cur : List Nat) : List (List Nat) :=
  if 6 ≤ cur.length then [cur] else []

/-- Loop body of MainWindow::extract_ascii_sequences. -/
def extrAsciiAux : List Nat → List Nat → List (List Nat)
  | [], cur => flushSeq cur
  | b :: t, cur =>
    if isAsciiGraphicB b || b = 32 then extrAsciiAux t (cur ++ [b])
    else flushSeq cur ++ extrAsciiAux t []

/-- MainWindow::extract_ascii_sequences: maximal runs of printable ASCII
bytes (or space) of length at least 6. -/
def extractAsciiSequences (bytes : List Nat) : List (List Nat) :=
  extrAsciiAux bytes []

/-- Loop body of MainWindow::extract_utf16le_sequences.  The Rust loop walks
an index two bytes at a time while a pair (low, high) has high byte zero and
printable low byte, and resynchronises by one byte otherwise.  Structural
recursion on a fuel counter kept at least as large as the byte count, so the
zero-fuel row is only reached on an exhausted buffer. -/
def extrU16Aux : Nat → List Nat → List Nat → List (List Nat)
  | 0, _, cur => flushSeq cur
  | fuel + 1, b0 :: b1 :: t, cur =>
    if b1 = 0 && (b0 = 0 || isAsciiGraphicB b0 || b0 = 32) then
      if b0 = 0 then flushSeq cur ++ extrU16Aux fuel t []
      else extrU16Aux fuel t (cur ++ [b0])
    else flushSeq cur ++ extrU16Aux fuel (b1 :: t) []
  | _ + 1, _, cur => flushSeq cur

/-- MainWindow::extract_utf16le_sequences. -/
def extractUtf16leSequences (bytes : List Nat) : List (List Nat) :=
  extrU16Aux bytes.length bytes []

/-- Byte legality inside a consumed Windows path run
(extract_windows_paths_from_text inner loop): alphanumeric or one of
backslash, slash, dot, underscore, hyphen, space, parentheses. -/
def pathLegalByte (b : Nat) : Bool :=
  isAsciiAlnumB b || b = 92 || b = 47 || b = 46 || b = 95 || b = 45 ||
    b = 32 || b = 40 || b = 41

/-- Index of the last occurrence of needle inside hay, Rust str::rfind with a
literal pattern. -/
def rfindSeq (hay needle : List Nat) : Option Nat :=
  ((List.range (hay.length + 1)).reverse).find?
    (fun k => needle.isPrefixOf (hay.drop k))

/-- Bytes of ".exe". -/
def exeSuffixBytes : List Nat := [46, 101, 120, 101]

/-- MainWindow::extract_windows_paths_from_text, over the bytes of one
recovered text run: scan for a drive-letter root, greedily consume path-legal
bytes, and keep the candidate truncated just after its last ".exe"
(case-insensitive). -/
def extrPathsAux : Nat → List Nat → List (List Nat)
  | 0, _ => []
  | fuel + 1, b0 :: b1 :: b2 :: t =>
    if isAsciiAlphaB b0 && b1 = 58 && b2 = 92 then
      let run := t.takeWhile pathLegalByte
      let cand := b0 :: b1 :: b2 :: run
      let rest := t.drop run.length
      (match rfindSeq (cand.map lowerByte) exeSuffixBytes with
       | some k => [cand.take (k + 4)]
       | none => []) ++ extrPathsAux fuel rest
    else extrPathsAux fuel (b1 :: b2 :: t)
  | _ + 1, _ => []

/-- MainWindow::extract_windows_paths_from_text on the bytes of one run. -/
def extractWindowsPathsFromText (bytes : List Nat) : List (List Nat) :=
  extrPathsAux bytes.length bytes

/-- Lexicographic byte-list order, matching the derived Ord used by
Vec<String>::sort on UTF-8 strings. -/
def bytesLe : List Nat → List Nat → Bool
  | [], _ => true
  | _ :: _, [] => false
  | a :: xs, b :: ys => if a < b then true else if b < a then false else bytesLe xs ys

/-- Tail of Rust Vec::dedup under a retained previous element. -/
def dedupAdjAux (x : List Nat) : List (List Nat) → List (List Nat)
  | [] => []
  | y :: t => if x = y then dedupAdjAux x t else y :: dedupAdjAux y t

/-- Rust Vec::dedup: drop adjacent duplicates, keeping the first. -/
def dedupAdj : List (List Nat) → List (List Nat)
  | [] => []
  | x :: t => x :: dedupAdjAux x t

/-- MainWindow::extract_windows_exe_paths_from_lnk minus the file read: run
both decodings, extract Windows paths from every recovered run, then sort
and dedup. -/
def extractExePaths (bytes : List Nat) : List (List Nat) :=
  let seqs := extractAsciiSequences bytes ++ extractUtf16leSequences bytes
  let results := (seqs.map extractWindowsPathsFromText).flatten
  dedupAdj (List.insertionSort (fun a b => bytesLe a b = true) results)

/-- Bytes of an ASCII string. -/
def strBytes (s : String) : List Nat :=
  s.data.map Char.toNat

/-! ### CatalogMatcher (umu_database.rs UmuDatabase::normalize_title, UmuEntry;
main_window.rs normalize_words, score_match, score_acronym, find_umu_matches). -/

/-- UmuDatabase::normalize_title: keep ASCII alphanumerics, lowercased.  The
Rust code applies full char::to_lowercase, which agrees with ASCII lowering on
the ASCII alphanumerics that survive the filter. -/
def normalizeTitle (s : String) : String :=
  String.mk ((s.data.filter isAsciiAlnumC).map lowerChar)

/-- Loop of MainWindow::normalize_words: split on non-alphanumerics,
lowercasing each word. -/
def normWordsAux : List Char → List Char → List String
  | [], cur => if cur.isEmpty then [] else [String.mk cur]
  | c :: t, cur =>
    if isAsciiAlnumC c then normWordsAux t (cur ++ [lowerChar c])
    else if cur.isEmpty then normWordsAux t []
    else String.mk cur :: normWordsAux t []

/-- MainWindow::normalize_words. -/
def normalizeWords (s : String) : List String :=
  normWordsAux s.data []

/-- MainWindow::score_match. -/
def scoreMatch (input candidate : String) : Option Int :=
  let inputCompact := normalizeTitle input
  let candidateCompact := normalizeTitle candidate
  if inputCompact = "" || candidateCompact = "" then none
  else if candidateCompact = inputCompact then some 0
  else if strContains candidateCompact inputCompact then some 1
  else
    let inputWords := normalizeWords input
    let candidateWords := normalizeWords candidate
    if !inputWords.isEmpty && inputWords.all (fun w => candidateWords.contains w) then
      some 2
    else if strContains inputCompact candidateCompact && 4 ≤ candidateCompact.length then
      some 3
    else none

/-- MainWindow::score_acronym. -/
def scoreAcronym (input acronym : String) : Option Int :=
  let inputCompact := normalizeTitle input
  let acronymCompact := normalizeTitle acronym
  if inputCompact = "" || acronymCompact = "" then none
  else if inputCompact = acronymCompact then some 0
  else if strContains inputCompact acronymCompact && 3 ≤ acronymCompact.length then
    some 2
  else none

/-- UmuEntry (umu_database.rs), every field optional. -/
structure UmuEntry where
  title : Option String
  umu_id : Option String
  acronym : Option String
  codename : Option String
  store : Option String
  exe_string : Option String
  notes : Option String
deriving DecidableEq

/-- UmuMatch (main_window.rs). -/
structure UmuMatch where
  entry : UmuEntry
  score : Int
deriving DecidableEq

/-- Best score for one entry (find_umu_matches body, lines computing
best_score from the title and acronym fields). -/
def bestScoreFor (title : String) (entry : UmuEntry) : Option Int :=
  let fromTitle : Option Int :=
    match entry.title with
    | some t => scoreMatch title t
    | none => none
  match entry.acronym with
  | some a =>
    match scoreAcronym title a with
    | some s =>
      some (match fromTitle with
            | some current => min current s
            | none => s)
    | none => fromTitle
  | none => fromTitle

/-- Dedup key: the (catalog id, store, codename) triple with empty-string
defaults (unwrap_or_default). -/
def umuKey (e : UmuEntry) : String × String × String :=
  (e.umu_id.getD "", e.store.getD "", e.codename.getD "")

/-- Vec::retain with a seen-set: keep the first occurrence of every key. -/
def dedupByKey : List UmuMatch → List (String × String × String) → List UmuMatch
  | [], _ => []
  | m :: t, seen =>
    if seen.contains (umuKey m.entry) then dedupByKey t seen
    else m :: dedupByKey t (umuKey m.entry :: seen)

/-- The sort_by comparator chain of find_umu_matches: score, then title byte
length, then title, then store, all ascending. -/
def umuCmp (a b : UmuMatch) : Ordering :=
  (compare a.score b.score).then
    ((compare (a.entry.title.getD "").utf8ByteSize (b.entry.title.getD "").utf8ByteSize).then
      ((compare (a.entry.title.getD "") (b.entry.title.getD "")).then
        (compare (a.entry.store.getD "") (b.entry.store.getD ""))))

/-- Scored raw matches before dedup (find_umu_matches first loop). -/
def scoredMatches (entries : List UmuEntry) (title : String) : List UmuMatch :=
  entries.filterMap (fun e => (bestScoreFor title e).map (fun s => ⟨e, s⟩))

/-- MainWindow::find_umu_matches. -/
def findUmuMatches (loaded : Bool) (entries : List UmuEntry) (title : String) :
    List UmuMatch :=
  if !loaded || entries.isEmpty then []
  else if normalizeTitle title = "" then []
  else
    let scored := scoredMatches entries title
    if scored.isEmpty then scored
    else
      let deduped := dedupByKey scored []
      let sorted := List.insertionSort (fun a b => umuCmp a b ≠ Ordering.gt) deduped
      sorted.take 20

/-! ### ExecutableResolver (main_window.rs is_exe_file, is_ignored_exe,
score_exe_candidate, find_exe_from_shortcuts, find_exe_from_dirs,
guess_executable).  A host path is its list of components; rendering joins
them with the host separator.  The filesystem walk itself is I/O, so the
walked entries ((host path, shortcut) pairs for the shortcut source, plain
paths for the directory source, each already pruned the way the walker
prunes) are inputs, and only the is_file test stays as an oracle. -/

/-- A filesystem path as its components. -/
abbrev HostPath := List String

/-- Oracle for Path::is_file / file_type().is_file(). -/
structure FsOracle where
  isFile : HostPath → Bool

/-- Last path component. -/
def fileName (p : HostPath) : String :=
  (p.getLast?).getD ""

/-- Rendering used by to_string_lossy on a host path. -/
def pathString (p : HostPath) : String :=
  String.intercalate "/" p

/-- MainWindow::is_exe_file. -/
def isExeFile (p : HostPath) : Bool :=
  match fileExt (fileName p) with
  | some ext => eqIgnoreAsciiCase ext "exe"
  | none => false

/-- Exact-name blocklist of MainWindow::is_ignored_exe. -/
def blockedExact : List String :=
  ["uninstall.exe", "uninstaller.exe", "setup.exe", "dxsetup.exe",
   "explorer.exe", "rundll32.exe", "cmd.exe", "powershell.exe",
   "iexplore.exe", "chrome.exe", "msedge.exe", "firefox.exe",
   "opera.exe", "brave.exe"]

/-- MainWindow::is_ignored_exe. -/
def isIgnoredExe (p : HostPath) : Bool :=
  let name := lowerStr (fileName p)
  if blockedExact.any (fun b => name = b) then true
  else if strStartsWith name "unins" || strContains name "uninstall" then true
  else if strContains name "redist" || strContains name "vcredist" then true
  else p.any (fun comp =>
    eqIgnoreAsciiCase comp "windows" || eqIgnoreAsciiCase comp "system32" ||
      eqIgnoreAsciiCase comp "syswow64")

/-- Name-similarity bonus of score_exe_candidate, shared between the
candidate-name comparison (40/25) and the shortcut-name comparison (25/15). -/
def similarityBonus (nameCompact otherCompact : String) (exact sub : Int) : Int :=
  if nameCompact ≠ "" && otherCompact ≠ "" then
    if otherCompact = nameCompact then exact
    else if strContains otherCompact nameCompact then sub
    else 0
  else 0

/-- Cumulative keyword penalties of score_exe_candidate. -/
def pathPenalty (p : HostPath) : Int :=
  let lowered := lowerStr (pathString p)
  (["unins", "uninstall", "dxsetup", "directx", "vcredist", "redist"].foldl
      (fun acc bad => if strContains lowered bad then acc + 80 else acc) 0)
  + (["setup", "installer", "support", "helper", "crash"].foldl
      (fun acc bad => if strContains lowered bad then acc + 25 else acc) 0)
  + (["launcher", "patcher", "updater"].foldl
      (fun acc bad => if strContains lowered bad then acc + 15 else acc) 0)

/-- MainWindow::score_exe_candidate. -/
def scoreExeCandidate (fs : FsOracle) (p : HostPath) (shortcut : Option HostPath)
    (capsuleName : String) (gameDir : Option HostPath) : Int :=
  (if fs.isFile p then 100 else 0)
  + (if shortcut.isSome then 20 else 0)
  + similarityBonus (normalizeTitle capsuleName)
      (normalizeTitle (fileStem (fileName p))) 40 25
  + (match shortcut with
     | some sp =>
       similarityBonus (normalizeTitle capsuleName)
         (normalizeTitle (fileStem (fileName sp))) 25 15
     | none => 0)
  + (match gameDir with
     | some root => if root.isPrefixOf p then 30 else 0
     | none => 0)
  - pathPenalty p

/-- ExecutableGuess (main_window.rs). -/
structure ExecutableGuess where
  path : HostPath
  shortcut : Option HostPath
  score : Int

/-- MainWindow::find_exe_from_shortcuts, over the stream of
(host path, originating shortcut) pairs recovered from non-URL shortcut
files: keep existing, executable, non-blocklisted candidates and score them. -/
def findExeFromShortcuts (fs : FsOracle) (pairs : List (HostPath × HostPath))
    (capsuleName : String) (gameDir : Option HostPath) : List ExecutableGuess :=
  pairs.filterMap (fun pr =>
    if fs.isFile pr.1 && isExeFile pr.1 && !isIgnoredExe pr.1 then
      some ⟨pr.1, some pr.2, scoreExeCandidate fs pr.1 (some pr.2) capsuleName gameDir⟩
    else none)

/-- MainWindow::find_exe_from_dirs, over the stream of walked entries. -/
def findExeFromDirs (fs : FsOracle) (paths : List HostPath)
    (capsuleName : String) (gameDir : Option HostPath) : List ExecutableGuess :=
  paths.filterMap (fun p =>
    if fs.isFile p && isExeFile p && !isIgnoredExe p then
      some ⟨p, none, scoreExeCandidate fs p none capsuleName gameDir⟩
    else none)

/-- MainWindow::guess_executable: shortcut candidates first, directory walk
as fallback, stable sort by descending score, best first. -/
def guessExecutable (fs : FsOracle) (pairs : List (HostPath × HostPath))
    (paths : List HostPath) (capsuleName : String) (gameDir : Option HostPath) :
    Option ExecutableGuess :=
  let first := findExeFromShortcuts fs pairs capsuleName gameDir
  let candidates := if first.isEmpty then findExeFromDirs fs paths capsuleName gameDir
    else first
  (List.insertionSort (fun a b => b.score ≤ a.score) candidates).head?

/-! ### DownloadEngine (runtime_manager.rs RuntimeManager::download_file).
The destination file and its ".part" sidecar are modelled by their sizes;
the two HTTP requests a run can make (one Range request, one plain request)
by a pair of response descriptions.  Chunks are the successive nonzero byte
counts the read loop obtains; filesystem primitives are assumed to succeed,
so only HTTP status and size checks can fail. -/

/-- One HTTP response: success flag, whether the status was 206
PARTIAL_CONTENT, the declared content length, and the streamed chunk sizes. -/
structure HttpResponse where
  ok : Bool
  status206 : Bool
  contentLength : Option Nat
  chunks : List Nat

/-- The network behaviour a run can observe. -/
structure NetBehaviour where
  rangeResp : HttpResponse
  plainResp : HttpResponse

/-- Sizes of the destination file and the ".part" sidecar (none = absent). -/
structure DlFs where
  dest : Option Nat
  sidecar : Option Nat
deriving DecidableEq

/-- Outcome of download_file. -/
inductive DlOutcome where
  | success
  | httpError
  | incompleteErr (downloaded expected : Nat)
  | mismatchErr (downloaded expected : Nat)
deriving DecidableEq

/-- The streaming loop: downloaded counter and the progress trace after the
initial report. -/
def streamLoop (start total : Nat) (chunks : List Nat) : Nat × List (Nat × Nat) :=
  chunks.foldl (fun acc c => (acc.1 + c, acc.2 ++ [(acc.1 + c, total)]))
    (start, ([] : List (Nat × Nat)))

/-- Tail of download_file from the point the response body is streamed into
the (created or appended) ".part" file: progress reports, the final size
check against the expected size, and the rename into place. -/
def finishDownload (resp : HttpResponse) (existing : Nat) (fs : DlFs)
    (expected : Option Nat) : DlOutcome × DlFs × List (Nat × Nat) :=
  let segmentSize := (resp.contentLength).getD 0
  let totalSize :=
    match expected with
    | some e => e
    | none => if 0 < segmentSize then existing + segmentSize else 0
  let stream := streamLoop existing totalSize resp.chunks
  let downloaded := stream.1
  let trace := (existing, totalSize) :: stream.2
  match expected with
  | some e =>
    if downloaded < e then
      (.incompleteErr downloaded e, { fs with sidecar := some downloaded }, trace)
    else if e < downloaded then
      (.mismatchErr downloaded e, { fs with sidecar := none }, trace)
    else (.success, ⟨some downloaded, none⟩, trace)
  | none => (.success, ⟨some downloaded, none⟩, trace)

/-- Middle of download_file once any pre-existing destination has been dealt
with: oversized sidecar eviction, request choice, Range fallback, streaming. -/
def dlCore (net : NetBehaviour) (fs : DlFs) (expected : Option Nat) :
    DlOutcome × DlFs × List (Nat × Nat) :=
  let existing0 := (fs.sidecar).getD 0
  let step1 :=
    match expected with
    | some e =>
      if e < existing0 then (({ fs with sidecar := none } : DlFs), 0)
      else (fs, existing0)
    | none => (fs, existing0)
  let fs1 := step1.1
  let existing := step1.2
  let resp0 := if 0 < existing then net.rangeResp else net.plainResp
  if resp0.ok = false then (.httpError, fs1, [])
  else if 0 < existing && resp0.status206 = false then
    let fs2 : DlFs := { fs1 with sidecar := none }
    if net.plainResp.ok = false then (.httpError, fs2, [])
    else finishDownload net.plainResp 0 fs2 expected
  else finishDownload resp0 existing fs1 expected

/-- RuntimeManager::download_file.  Returns the outcome, the final state of
destination and sidecar, and the (downloaded, total) progress trace. -/
def downloadFile (net : NetBehaviour) (fs : DlFs) (expectedSize : Option Nat) :
    DlOutcome × DlFs × List (Nat × Nat) :=
  let expected :=
    match expectedSize with
    | some s => if 0 < s then some s else none
    | none => none
  match fs.dest, expected with
  | some d, some e =>
    if d = e then (.success, fs, [(d, e)])
    else if d < e then dlCore net ⟨none, some d⟩ expected
    else dlCore net ⟨none, fs.sidecar⟩ expected
  | some _, none => (.success, fs, [])
  | none, _ => dlCore net fs expected

/-! ### RuntimeInstaller (runtime_manager.rs RuntimeManager::install_proton_ge).
The downloads cache reuses the DlFs model; the staging directory is its
content tag (none = absent); the runtime root maps directory names to content
tags.  The archive is abstracted by whether extraction succeeds, the single
top-level directory it produces (none = files extracted flat into staging),
and a content tag.  Progress text is not tracked. -/

/-- Abstraction of the cached .tar.gz archive contents. -/
structure TarArchive where
  extractOk : Bool
  topDir : Option String
  content : Nat

/-- Filesystem state seen by install_proton_ge. -/
structure InstFs where
  cache : DlFs
  staging : Option Nat
  runtimes : String → Option Nat

/-- Errors of install_proton_ge. -/
inductive InstErr where
  | noAsset
  | downloadFailed
  | extractFailed
deriving DecidableEq

/-- Name resolution of the extracted root (install_proton_ge lines preferring
a subdirectory named after the tag, else the first directory found, else the
staging root itself, whose name falls back to the tag). -/
def resolvedName (arch : TarArchive) (tag : String) : String :=
  match arch.topDir with
  | some d => d
  | none => tag

/-- Expected size derived from the asset size (install_proton_ge). -/
def expectedOf (sz : Nat) : Option Nat :=
  if 0 < sz then some sz else none

/-- RuntimeManager::install_proton_ge: asset selection, cache eviction on
reinstall, conditional download, staging extraction, root resolution and the
final rename, returning the installed directory name. -/
def installProtonGe (net : NetBehaviour) (arch : TarArchive) (tag : String)
    (asset : Option Nat) (reinstall : Bool) (st : InstFs) :
    Except InstErr String × InstFs :=
  match asset with
  | none => (.error .noAsset, st)
  | some sz =>
    let expected := expectedOf sz
    let st1 := if reinstall then { st with cache := ⟨none, none⟩ } else st
    let cachedSize := (st1.cache.dest).getD 0
    let needDl := st1.cache.dest.isNone ||
      (match expected with
       | some s => decide (cachedSize ≠ s)
       | none => false)
    let dl := if needDl then
        let r := downloadFile net st1.cache expected
        (r.1, r.2.1)
      else (.success, st1.cache)
    let st2 := { st1 with cache := dl.2 }
    if dl.1 = DlOutcome.success then
      let st3 := { st2 with staging := none }
      if arch.extractOk then
        let st4 := { st3 with staging := some arch.content }
        let name := resolvedName arch tag
        match st4.runtimes name with
        | some _ =>
          if reinstall then
            (.ok name,
             { st4 with staging := none,
                        runtimes := Function.update st4.runtimes name (some arch.content) })
          else (.ok name, { st4 with staging := none })
        | none =>
          (.ok name,
           { st4 with staging := none,
                      runtimes := Function.update st4.runtimes name (some arch.content) })
      else (.error .extractFailed, st3)
    else (.error .downloadFailed, st2)

/-! ### ProcessSupervisor kill (main_window.rs, the KillInstall message arm).
The tracked install groups are a map from capsule directory to process-group
id; the arm removes the entry and, when one was present, sends exactly one
SIGKILL addressed to the negated group id, with no later wait. -/

/-- Signal number of SIGKILL. -/
def sigkillNum : Int := 9

/-- The KillInstall arm of MainWindow::update: the new tracking map and the
list of (target pid, signal) syscalls issued. -/
def killInstallStep (active : String → Option Int) (capsuleDir : String) :
    (String → Option Int) × List (Int × Int) :=
  match active capsuleDir with
  | some pgid => (Function.update active capsuleDir none, [(-pgid, sigkillNum)])
  | none => (active, [])

/-! ### Capsule metadata record (capsule.rs CapsuleMetadata / ExecutableConfig /
ExecutableEntry) and its serde_json serialization.  The JSON value model and
the two directions reproduce derived serde behaviour for these structs:
declaration-order fields, Option fields absent-or-null on read, serde(default)
on tools and last_played, skip_serializing_if on original_shortcut, unknown
keys ignored. -/

/-- ExecutableEntry (capsule.rs). -/
structure ExecutableEntry where
  path : String
  args : String
  label : String
  original_shortcut : Option String
deriving DecidableEq

/-- ExecutableConfig (capsule.rs). -/
structure ExecutableConfig where
  main : ExecutableEntry
  tools : List ExecutableEntry
deriving DecidableEq

/-- CapsuleMetadata (capsule.rs). -/
structure CapsuleMetadata where
  name : String
  executables : ExecutableConfig
  wine_version : Option String
  dxvk_enabled : Bool
  vkd3d_enabled : Bool
  env_vars : List (String × String)
  redistributables_installed : List String
  last_played : Option String
deriving DecidableEq

/-- JSON values. -/
inductive Json where
  | jnull
  | jbool (b : Bool)
  | jstr (s : String)
  | jarr (xs : List Json)
  | jobj (fields : List (String × Json))

/-- Lookup of a key in an object field list (first match). -/
def jget : List (String × Json) → String → Option Json
  | [], _ => none
  | (k, v) :: t, key => if k = key then some v else jget t key

/-- Serialization of an Option String field that is written as null when
absent (wine_version, last_played). -/
def serOptStr : Option String → Json
  | some s => .jstr s
  | none => .jnull

/-- Serialization of ExecutableEntry; original_shortcut carries
skip_serializing_if = Option::is_none. -/
def serEntry (e : ExecutableEntry) : Json :=
  .jobj ([("path", .jstr e.path), ("args", .jstr e.args), ("label", .jstr e.label)] ++
    (match e.original_shortcut with
     | some s => [("original_shortcut", Json.jstr s)]
     | none => []))

/-- Serialization of ExecutableConfig. -/
def serConfig (c : ExecutableConfig) : Json :=
  .jobj [("main", serEntry c.main), ("tools", .jarr (c.tools.map serEntry))]

/-- Serialization of CapsuleMetadata, fields in declaration order. -/
def serMetadata (m : CapsuleMetadata) : Json :=
  .jobj [("name", .jstr m.name),
         ("executables", serConfig m.executables),
         ("wine_version", serOptStr m.wine_version),
         ("dxvk_enabled", .jbool m.dxvk_enabled),
         ("vkd3d_enabled", .jbool m.vkd3d_enabled),
         ("env_vars", .jarr (m.env_vars.map (fun pr => .jarr [.jstr pr.1, .jstr pr.2]))),
         ("redistributables_installed",
          .jarr (m.redistributables_installed.map Json.jstr)),
         ("last_played", serOptStr m.last_played)]

/-- Parse of a required String field. -/
def parseStrField (fields : List (String × Json)) (k : String) : Option String :=
  match jget fields k with
  | some (.jstr s) => some s
  | _ => none

/-- Parse of a required Bool field. -/
def parseBoolField (fields : List (String × Json)) (k : String) : Option Bool :=
  match jget fields k with
  | some (.jbool b) => some b
  | _ => none

/-- Parse of an Option String field: absent or null reads as none, a string
as some, anything else is a parse error. -/
def parseOptStrField (fields : List (String × Json)) (k : String) :
    Option (Option String) :=
  match jget fields k with
  | none => some none
  | some .jnull => some none
  | some (.jstr s) => some (some s)
  | some _ => none

/-- Parse of a JSON array element list into strings. -/
def parseStrs : List Json → Option (List String)
  | [] => some []
  | .jstr s :: t => (parseStrs t).map (fun r => s :: r)
  | _ => none

/-- Parse of one (String, String) tuple, serialized as a two-element array. -/
def parsePair : Json → Option (String × String)
  | .jarr [.jstr a, .jstr b] => some (a, b)
  | _ => none

/-- Parse of a tuple list. -/
def parsePairs : List Json → Option (List (String × String))
  | [] => some []
  | j :: t =>
    match parsePair j, parsePairs t with
    | some p, some r => some (p :: r)
    | _, _ => none

/-- Parse of ExecutableEntry. -/
def parseEntry : Json → Option ExecutableEntry
  | .jobj f =>
    match parseStrField f "path", parseStrField f "args", parseStrField f "label",
        parseOptStrField f "original_shortcut" with
    | some p, some a, some l, some os => some ⟨p, a, l, os⟩
    | _, _, _, _ => none
  | _ => none

/-- Parse of an entry list. -/
def parseEntries : List Json → Option (List ExecutableEntry)
  | [] => some []
  | j :: t =>
    match parseEntry j, parseEntries t with
    | some e, some r => some (e :: r)
    | _, _ => none

/-- Parse of ExecutableConfig: main is required, tools carries
serde(default) and reads as the empty list when absent. -/
def parseConfig : Json → Option ExecutableConfig
  | .jobj f =>
    match jget f "main" with
    | some jm =>
      match parseEntry jm with
      | some main =>
        match jget f "tools" with
        | none => some ⟨main, []⟩
        | some (.jarr xs) => (parseEntries xs).map (fun ts => ⟨main, ts⟩)
        | some _ => none
      | none => none
    | none => none
  | _ => none

/-- Parse of CapsuleMetadata.  Unknown keys are ignored (derived serde
behaviour without deny_unknown_fields); wine_version is an Option field and
last_played additionally carries serde(default), both reading absent as
none. -/
def parseMetadata : Json → Option CapsuleMetadata
  | .jobj f =>
    match parseStrField f "name" with
    | some name =>
      match (jget f "executables").bind parseConfig with
      | some execs =>
        match parseOptStrField f "wine_version" with
        | some wine =>
          match parseBoolField f "dxvk_enabled", parseBoolField f "vkd3d_enabled" with
          | some dxvk, some vkd3d =>
            match jget f "env_vars", jget f "redistributables_installed" with
            | some (.jarr evs), some (.jarr reds) =>
              match parsePairs evs, parseStrs reds with
              | some envVars, some redists =>
                match parseOptStrField f "last_played" with
                | some lastPlayed =>
                  some ⟨name, execs, wine, dxvk, vkd3d, envVars, redists, lastPlayed⟩
                | none => none
              | _, _ => none
            | _, _ => none
          | _, _ => none
        | none => none
      | none => none
    | none => none
  | _ => none

/-- Serialization of the same record with every defaultable or optional key
omitted: no wine_version, no last_played, no tools, no original_shortcut. -/
def serEntryMinimal (e : ExecutableEntry) : Json :=
  .jobj [("path", .jstr e.path), ("args", .jstr e.args), ("label", .jstr e.label)]

/-- Minimal serialization of the config. -/
def serConfigMinimal (c : ExecutableConfig) : Json :=
  .jobj [("main", serEntryMinimal c.main)]

/-- Minimal serialization of the metadata record. -/
def serMetadataMinimal (m : CapsuleMetadata) : Json :=
  .jobj [("name", .jstr m.name),
         ("executables", serConfigMinimal m.executables),
         ("dxvk_enabled", .jbool m.dxvk_enabled),
         ("vkd3d_enabled", .jbool m.vkd3d_enabled),
         ("env_vars", .jarr (m.env_vars.map (fun pr => .jarr [.jstr pr.1, .jstr pr.2]))),
         ("redistributables_installed",
          .jarr (m.redistributables_installed.map Json.jstr))]

/-- The record the minimal serialization should read back as: the optional
and defaultable fields at their read defaults. -/
def withReadDefaults (m : CapsuleMetadata) : CapsuleMetadata :=
  { m with
    executables := ⟨{ m.executables.main with original_shortcut := none }, []⟩,
    wine_version := none,
    last_played := none }

/-! ### Concrete instances used to evaluate the model on specific inputs. -/

/-- Bytes of the sample Windows path. -/
def barPathBytes : List Nat := strBytes "C:\\Games\\Foo\\Bar.EXE"

/-- The sample path padded with non-printable bytes on both sides. -/
def asciiShortcutBuf : List Nat := [1] ++ barPathBytes ++ [1]

/-- The sample path re-encoded as 16-bit little-endian code units with zero
high bytes, padded with null pairs. -/
def utf16ShortcutBuf : List Nat :=
  [0, 0] ++ barPathBytes.flatMap (fun b => [b, 0]) ++ [0, 0]

/-- A network that refuses every request. -/
def netRefuse : NetBehaviour :=
  ⟨⟨false, false, none, []⟩, ⟨false, false, none, []⟩⟩

/-- A network whose plain response delivers exactly one byte. -/
def netOneByte : NetBehaviour :=
  ⟨⟨true, true, some 1, [1]⟩, ⟨true, false, some 1, [1]⟩⟩

/-- An archive that extracts one top-level directory. -/
def archSample : TarArchive := ⟨true, some "GE-Proton9-1", 5⟩

/-- An install state with a stale staging directory left by an earlier run. -/
def stStaleStaging : InstFs := ⟨⟨none, none⟩, some 3, fun _ => none⟩

/-- An install state where the sample release is already installed. -/
def stInstalled : InstFs :=
  ⟨⟨none, none⟩, none, fun nm => if nm = "GE-Proton9-1" then some 7 else none⟩

/-- A filesystem oracle where exactly one file exists, under a directory
whose name contains vcredist. -/
def fsVcredistDir : FsOracle :=
  ⟨fun p => p == ["vcredist", "app.exe"]⟩

/-- A filesystem oracle where exactly one ordinary game file exists. -/
def fsGame : FsOracle :=
  ⟨fun p => p == ["Games", "app.exe"]⟩

/-- A catalog entry titled exactly like the sample query. -/
def entrySample : UmuEntry :=
  ⟨some "x", some "umu-1", none, none, some "steam", none, none⟩

/-- A tracking map with one recorded install group. -/
def activeSample : String → Option Int :=
  fun _ => some 42

/-! ## Theorems -/

/-- Helper: the similarity bonus is nonnegative for nonnegative constants. -/
theorem similarityBonus_nonneg (nc oc : String) (a b : Int) (ha : 0 ≤ a)
    (hb : 0 ≤ b) : 0 ≤ similarityBonus nc oc a b := by
  unfold similarityBonus
  split_ifs <;> omega

/-- C4: a buffer holding the ASCII bytes of the sample Windows path padded
with non-printable bytes yields exactly that one path, and the same text
re-encoded as 16-bit little-endian code units yields the same result through
the UTF-16 decoding pass. -/
theorem shortcut_scan_c4 :
    extractExePaths asciiShortcutBuf = [barPathBytes] ∧
      extractExePaths utf16ShortcutBuf = [barPathBytes] := by
  constructor <;> decide

/-- C6: with all other inputs equal, a candidate discovered via a shortcut
scores at least 20 points more than the same candidate without a shortcut
origin. -/
theorem shortcut_score_c6 (fs : FsOracle) (p : HostPath) (sc : HostPath)
    (capsuleName : String) (gameDir : Option HostPath) :
    scoreExeCandidate fs p none capsuleName gameDir + 20 ≤
      scoreExeCandidate fs p (some sc) capsuleName gameDir := by
  have h := similarityBonus_nonneg (normalizeTitle capsuleName)
    (normalizeTitle (fileStem (fileName sc))) 25 15 (by omega) (by omega)
  simp only [scoreExeCandidate, Option.isSome_some, Option.isSome_none,
    if_true, if_false, Bool.false_eq_true, reduceIte]
  omega

/-- C8: when a process-group id is recorded for the capsule, the kill arm
issues exactly one SIGKILL addressed to the negated group id and drops the
tracking entry; when none is recorded, nothing changes and no signal is
sent. -/
theorem kill_install_c8 (active : String → Option Int) (dir : String) :
    (∀ pgid, active dir = some pgid →
      (killInstallStep active dir).2 = [(-pgid, sigkillNum)] ∧
        (killInstallStep active dir).1 dir = none) ∧
      (active dir = none → killInstallStep active dir = (active, [])) := by
  constructor
  · intro pgid h
    simp [killInstallStep, h, Function.update_same]
  · intro h
    simp [killInstallStep, h]

/-- Witness for C8 at a concrete tracking map. -/
theorem kill_install_c8_witness :
    (killInstallStep activeSample "capsule").2 = [(-42, sigkillNum)] ∧
      (killInstallStep activeSample "capsule").1 "capsule" = none :=
  (kill_install_c8 activeSample "capsule").1 42 rfl

/-- C10: with the expected size unknown (absent or zero) and the destination
file present, download_file succeeds immediately: the state is untouched, no
progress callback fires, and the result does not depend on the network or on
the existing size. -/
theorem download_cached_noop_c10 (net : NetBehaviour) (fs : DlFs) (d : Nat)
    (es : Option Nat) (hdest : fs.dest = some d) (hes : es = none ∨ es = some 0) :
    downloadFile net fs es = (.success, fs, []) := by
  rcases hes with rfl | rfl <;> simp [downloadFile, hdest]

/-- Witness for C10 at a concrete state. -/
theorem download_cached_noop_c10_witness :
    downloadFile netRefuse ⟨some 5, none⟩ (some 0) = (.success, ⟨some 5, none⟩, []) :=
  download_cached_noop_c10 netRefuse ⟨some 5, none⟩ 5 (some 0) rfl (Or.inr rfl)

/-- Helper: string lists parse back. -/
theorem parseStrs_roundtrip (l : List String) :
    parseStrs (l.map Json.jstr) = some l := by
  induction l with
  | nil => rfl
  | cons h t ih => simp [parseStrs, ih]

/-- Helper: tuple lists parse back. -/
theorem parsePairs_roundtrip (l : List (String × String)) :
    parsePairs (l.map (fun pr => Json.jarr [.jstr pr.1, .jstr pr.2])) = some l := by
  induction l with
  | nil => rfl
  | cons h t ih => simp [parsePairs, parsePair, ih]

/-- Helper: an entry parses back. -/
theorem parseEntry_roundtrip (e : ExecutableEntry) :
    parseEntry (serEntry e) = some e := by
  obtain ⟨p, a, l, os⟩ := e
  cases os <;> rfl

/-- Helper: entry lists parse back. -/
theorem parseEntries_roundtrip (l : List ExecutableEntry) :
    parseEntries (l.map serEntry) = some l := by
  induction l with
  | nil => rfl
  | cons h t ih => simp [parseEntries, parseEntry_roundtrip, ih]

/-- C9: serializing a capsule metadata record and parsing the result yields
the same record, and parsing a serialization from which every optional or
defaultable field is absent still succeeds, with those fields at their empty
read defaults. -/
theorem metadata_roundtrip_c9 :
    (∀ m : CapsuleMetadata, parseMetadata (serMetadata m) = some m) ∧
      (∀ m : CapsuleMetadata,
        parseMetadata (serMetadataMinimal m) = some (withReadDefaults m)) := by
  constructor
  · intro m
    obtain ⟨name, ⟨main, tools⟩, wine, dxvk, vkd3d, envs, reds, lastp⟩ := m
    cases wine <;> cases lastp <;>
      simp [serMetadata, serConfig, serOptStr, parseMetadata, parseConfig,
        parseStrField, parseBoolField, parseOptStrField, jget,
        parseEntry_roundtrip, parseEntries_roundtrip, parsePairs_roundtrip,
        parseStrs_roundtrip]
  · intro m
    obtain ⟨name, ⟨main, tools⟩, wine, dxvk, vkd3d, envs, reds, lastp⟩ := m
    obtain ⟨mp, ma, ml, mos⟩ := main
    simp [serMetadataMinimal, serConfigMinimal, serEntryMinimal, parseMetadata,
      parseConfig, parseEntry, parseStrField, parseBoolField, parseOptStrField,
      jget, parsePairs_roundtrip, parseStrs_roundtrip, withReadDefaults]

/-- Helper: outcome and final state of the streaming tail under a known
expected size. -/
theorem finishDownload_spec (resp : HttpResponse) (existing : Nat) (fs : DlFs)
    (e : Nat) :
    ((finishDownload resp existing fs (some e)).1 = .success →
      (finishDownload resp existing fs (some e)).2.1 = ⟨some e, none⟩) ∧
      ((finishDownload resp existing fs (some e)).1 ≠ .success →
        (finishDownload resp existing fs (some e)).2.1.dest = fs.dest) ∧
      (∀ d x, (finishDownload resp existing fs (some e)).1 = .incompleteErr d x →
        (finishDownload resp existing fs (some e)).2.1.sidecar = some d) ∧
      (∀ d x, (finishDownload resp existing fs (some e)).1 = .mismatchErr d x →
        (finishDownload resp existing fs (some e)).2.1.sidecar = none) := by
  unfold finishDownload
  by_cases h1 : (streamLoop existing e resp.chunks).1 < e
  · simp only [if_pos h1]
    refine ⟨?_, ?_, ?_, ?_⟩
    · intro hc
      exact absurd hc (by simp)
    · intro _
      trivial
    · intro d x hd
      injection hd with h4 h5
      simp [h4]
    · intro d x hd
      exact absurd hd (by simp)
  · by_cases h2 : e < (streamLoop existing e resp.chunks).1
    · simp only [if_neg h1, if_pos h2]
      refine ⟨?_, ?_, ?_, ?_⟩
      · intro hc
        exact absurd hc (by simp)
      · intro _
        trivial
      · intro d x hd
        exact absurd hd (by simp)
      · intro d x hd
        trivial
    · have h3 : (streamLoop existing e resp.chunks).1 = e := by omega
      simp only [if_neg h1, if_neg h2]
      refine ⟨?_, ?_, ?_, ?_⟩
      · intro _
        simp [h3]
      · intro hc
        exact absurd rfl hc
      · intro d x hd
        exact absurd hd (by simp)
      · intro d x hd
        exact absurd hd (by simp)

/-- Helper: the streaming tail keeps a destination that was absent absent on
every failure. -/
theorem finishDownload_dest_none (resp : HttpResponse) (existing : Nat)
    (fs : DlFs) (e : Nat) (h : fs.dest = none) :
    ((finishDownload resp existing fs (some e)).1 = .success →
      (finishDownload resp existing fs (some e)).2.1 = ⟨some e, none⟩) ∧
      ((finishDownload resp existing fs (some e)).1 ≠ .success →
        (finishDownload resp existing fs (some e)).2.1.dest = none) ∧
      (∀ d x, (finishDownload resp existing fs (some e)).1 = .incompleteErr d x →
        (finishDownload resp existing fs (some e)).2.1.sidecar = some d) ∧
      (∀ d x, (finishDownload resp existing fs (some e)).1 = .mismatchErr d x →
        (finishDownload resp existing fs (some e)).2.1.sidecar = none) := by
  obtain ⟨h1, h2, h3, h4⟩ := finishDownload_spec resp existing fs e
  exact ⟨h1, fun hn => (h2 hn).trans h, h3, h4⟩

/-- Helper: outcome and final state of the core download path when the
destination is absent. -/
theorem dlCore_spec (net : NetBehaviour) (fs : DlFs) (e : Nat)
    (hdest : fs.dest = none) :
    ((dlCore net fs (some e)).1 = .success →
      (dlCore net fs (some e)).2.1 = ⟨some e, none⟩) ∧
      ((dlCore net fs (some e)).1 ≠ .success →
        (dlCore net fs (some e)).2.1.dest = none) ∧
      (∀ d x, (dlCore net fs (some e)).1 = .incompleteErr d x →
        (dlCore net fs (some e)).2.1.sidecar = some d) ∧
      (∀ d x, (dlCore net fs (some e)).1 = .mismatchErr d x →
        (dlCore net fs (some e)).2.1.sidecar = none) := by
  obtain ⟨fsd, fsp⟩ := fs
  simp only [DlFs.mk.injEq] at hdest
  subst hdest
  unfold dlCore
  dsimp only
  split_ifs <;>
    first
      | exact finishDownload_dest_none _ _ _ _ rfl
      | exact ⟨fun hc => by simp at hc, fun _ => rfl,
          fun d x hd => by simp at hd, fun d x hd => by simp at hd⟩

/-- C1 (amended): with a known positive expected size, download_file either
succeeds with the destination holding exactly the expected size — reusing an
already-complete destination unchanged, and in every other successful case
renaming the partial away so no ".part" remains — or fails leaving no file at
the destination; an incomplete-error retains the partial with the bytes
downloaded so far, and a size-mismatch error deletes it. -/
theorem download_complete_c1_amended (net : NetBehaviour) (fs : DlFs) (e : Nat)
    (he : 0 < e) :
    ((downloadFile net fs (some e)).1 = .success →
      (downloadFile net fs (some e)).2.1.dest = some e ∧
        (fs.dest = some e → (downloadFile net fs (some e)).2.1 = fs) ∧
        (fs.dest ≠ some e → (downloadFile net fs (some e)).2.1.sidecar = none)) ∧
      ((downloadFile net fs (some e)).1 ≠ .success →
        (downloadFile net fs (some e)).2.1.dest = none) ∧
      (∀ d x, (downloadFile net fs (some e)).1 = .incompleteErr d x →
        (downloadFile net fs (some e)).2.1.sidecar = some d) ∧
      (∀ d x, (downloadFile net fs (some e)).1 = .mismatchErr d x →
        (downloadFile net fs (some e)).2.1.sidecar = none) := by
  obtain ⟨fsd, fsp⟩ := fs
  unfold downloadFile
  simp only [if_pos he]
  cases fsd with
  | none =>
    obtain ⟨s1, s2, s3, s4⟩ := dlCore_spec net ⟨none, fsp⟩ e rfl
    refine ⟨fun hs => ⟨?_, ?_, ?_⟩, s2, s3, s4⟩
    · rw [s1 hs]
    · intro hd
      exact absurd hd (by simp)
    · intro _
      rw [s1 hs]
  | some d =>
    by_cases hde : d = e
    · subst hde
      simp only [if_pos rfl]
      refine ⟨fun _ => ⟨rfl, fun _ => rfl, fun hne => absurd rfl hne⟩,
        fun hn => absurd rfl hn, fun d x hd => by simp at hd,
        fun d x hd => by simp at hd⟩
    · simp only [if_neg hde]
      by_cases hlt : d < e
      · simp only [if_pos hlt]
        obtain ⟨s1, s2, s3, s4⟩ := dlCore_spec net ⟨none, some d⟩ e rfl
        refine ⟨fun hs => ⟨?_, ?_, ?_⟩, s2, s3, s4⟩
        · rw [s1 hs]
        · intro hd
          simp only [Option.some.injEq] at hd
          exact absurd hd hde
        · intro _
          rw [s1 hs]
      · simp only [if_neg hlt]
        obtain ⟨s1, s2, s3, s4⟩ := dlCore_spec net ⟨none, fsp⟩ e rfl
        refine ⟨fun hs => ⟨?_, ?_, ?_⟩, s2, s3, s4⟩
        · rw [s1 hs]
        · intro hd
          simp only [Option.some.injEq] at hd
          exact absurd hd hde
        · intro _
          rw [s1 hs]

/-- Witness for the amended C1 at a concrete fresh download. -/
theorem download_complete_c1_witness :
    (downloadFile netOneByte ⟨none, none⟩ (some 1)).2.1.dest = some 1 ∧
      (downloadFile netOneByte ⟨none, none⟩ (some 1)).2.1.sidecar = none := by
  have h := (download_complete_c1_amended netOneByte ⟨none, none⟩ 1 (by decide)).1 rfl
  exact ⟨h.1, h.2.2 (by simp)⟩

/-- Counterexample to C1 as stated: when the destination already holds the
expected number of bytes, the operation succeeds immediately and a stale
".part" sidecar survives, so the partial is not renamed into the final
destination on every success. -/
theorem download_complete_c1_counterexample :
    (downloadFile netRefuse ⟨some 5, some 3⟩ (some 5)).1 = DlOutcome.success ∧
      (downloadFile netRefuse ⟨some 5, some 3⟩ (some 5)).2.1.sidecar = some 3 := by
  constructor <;> rfl

/-- Helper: after install_proton_ge either no staging directory exists, or
the run failed before reaching extraction (missing archive asset or download
failure) and the staging state is exactly what it was on entry. -/
theorem install_staging_aux (net : NetBehaviour) (arch : TarArchive)
    (tag : String) (asset : Option Nat) (reinstall : Bool) (st : InstFs) :
    (installProtonGe net arch tag asset reinstall st).2.staging = none ∨
      ((installProtonGe net arch tag asset reinstall st).2.staging = st.staging ∧
        ((installProtonGe net arch tag asset reinstall st).1 = .error .noAsset ∨
          (installProtonGe net arch tag asset reinstall st).1 = .error .downloadFailed)) := by
  cases asset with
  | none => exact .inr ⟨rfl, .inl rfl⟩
  | some sz =>
    unfold installProtonGe
    dsimp only
    split_ifs <;>
      first
        | (left; rfl)
        | (right; exact ⟨rfl, .inr rfl⟩)
        | (left; split <;> rfl)

/-- C2 (amended): a staging directory that did not exist before the call
never exists after it, on success and on every failure; moreover every run
that reaches the extraction phase (success or extraction failure) removes
staging, while a failure before extraction (missing archive asset, download
failure) leaves the staging state untouched, so a stale staging directory
from an earlier run can survive such an early failure. -/
theorem staging_cleanup_c2_amended (net : NetBehaviour) (arch : TarArchive)
    (tag : String) (asset : Option Nat) (reinstall : Bool) (st : InstFs) :
    (st.staging = none →
      (installProtonGe net arch tag asset reinstall st).2.staging = none) ∧
      (∀ n, (installProtonGe net arch tag asset reinstall st).1 = Except.ok n →
        (installProtonGe net arch tag asset reinstall st).2.staging = none) ∧
      ((installProtonGe net arch tag asset reinstall st).1 =
          Except.error InstErr.extractFailed →
        (installProtonGe net arch tag asset reinstall st).2.staging = none) := by
  have aux := install_staging_aux net arch tag asset reinstall st
  refine ⟨?_, ?_, ?_⟩
  · intro hst
    rcases aux with h | ⟨heq, _⟩
    · exact h
    · rw [heq, hst]
  · intro n hn
    rcases aux with h | ⟨_, herr | herr⟩
    · exact h
    · rw [hn] at herr
      exact Except.noConfusion herr
    · rw [hn] at herr
      exact Except.noConfusion herr
  · intro hn
    rcases aux with h | ⟨_, herr | herr⟩
    · exact h
    · rw [hn] at herr
      injection herr with hx
      exact InstErr.noConfusion hx
    · rw [hn] at herr
      injection herr with hx
      exact InstErr.noConfusion hx

/-- Witness for the amended C2 at a concrete successful install. -/
theorem staging_cleanup_c2_witness :
    (installProtonGe netOneByte archSample "GE-Proton9-1" (some 1) false
        stInstalled).2.staging = none :=
  (staging_cleanup_c2_amended netOneByte archSample "GE-Proton9-1" (some 1)
    false stInstalled).1 rfl

/-- Counterexample to C2 as stated: with a stale staging directory on disk,
a run that fails before extraction (here: release without a tar.gz asset)
returns with the staging directory still present. -/
theorem staging_cleanup_c2_counterexample :
    (installProtonGe netRefuse archSample "t" none false stStaleStaging).1 =
        Except.error InstErr.noAsset ∧
      (installProtonGe netRefuse archSample "t" none false
          stStaleStaging).2.staging = some 3 := by
  constructor <;> rfl

/-- C3: when the resolved final directory already exists under the runtime
root, a successful run without reinstall returns its name and leaves the
whole runtime map unchanged, and a successful run with reinstall returns the
same name with the directory now holding the freshly extracted payload. -/
theorem install_existing_c3 (net : NetBehaviour) (arch : TarArchive)
    (tag : String) (sz : Nat) (st : InstFs) (c : Nat) (n : String)
    (hex : st.runtimes (resolvedName arch tag) = some c) :
    ((installProtonGe net arch tag (some sz) false st).1 = Except.ok n →
      n = resolvedName arch tag ∧
        (installProtonGe net arch tag (some sz) false st).2.runtimes =
          st.runtimes) ∧
      ((installProtonGe net arch tag (some sz) true st).1 = Except.ok n →
        n = resolvedName arch tag ∧
          (installProtonGe net arch tag (some sz) true st).2.runtimes
              (resolvedName arch tag) = some arch.content) := by
  constructor
  all_goals
    intro hn
    unfold installProtonGe at hn ⊢
    simp only [Bool.false_eq_true, if_true, if_false,
      ite_true, ite_false] at hn ⊢
    rw [hex] at hn ⊢
    split_ifs at hn ⊢ <;>
      first
        | exact Except.noConfusion hn
        | (injection hn with h
           exact ⟨h.symm, rfl⟩)
        | (injection hn with h
           exact ⟨h.symm, Function.update_same _ _ _⟩)

/-- Helper: a candidate that passed the blocklist matches none of its
conditions. -/
theorem not_ignored_spec (p : HostPath) (h : isIgnoredExe p = false) :
    lowerStr (fileName p) ≠ "uninstall.exe" ∧
      strContains (lowerStr (fileName p)) "vcredist" = false ∧
      ∀ comp ∈ p, eqIgnoreAsciiCase comp "system32" = false := by
  unfold isIgnoredExe at h
  dsimp only at h
  split_ifs at h with h1 h2 h3
  rw [List.any_eq_false] at h
  refine ⟨?_, ?_, ?_⟩
  · intro heq
    apply h1
    rw [heq]
    decide
  · simp only [Bool.not_eq_true, Bool.or_eq_false_iff] at h3
    exact h3.2
  · intro comp hc
    have hcomp := h comp hc
    simp only [Bool.not_eq_true, Bool.or_eq_false_iff] at hcomp
    exact hcomp.1.2

/-- C5 (amended): the executable guess never wins with a candidate whose
file name lowercases to uninstall.exe, whose file name contains vcredist, or
whose path passes through a component equal (case-insensitively) to
system32.  A vcredist occurrence in a directory component, with a clean file
name, is not blocked — see the counterexample to the claim as stated. -/
theorem blocklist_c5_amended (fs : FsOracle) (pairs : List (HostPath × HostPath))
    (paths : List HostPath) (capsuleName : String) (gameDir : Option HostPath)
    (g : ExecutableGuess)
    (h : guessExecutable fs pairs paths capsuleName gameDir = some g) :
    lowerStr (fileName g.path) ≠ "uninstall.exe" ∧
      strContains (lowerStr (fileName g.path)) "vcredist" = false ∧
      ∀ comp ∈ g.path, eqIgnoreAsciiCase comp "system32" = false := by
  unfold guessExecutable at h
  have hmem : g ∈ List.insertionSort (fun a b => b.score ≤ a.score)
      (if (findExeFromShortcuts fs pairs capsuleName gameDir).isEmpty then
        findExeFromDirs fs paths capsuleName gameDir
      else findExeFromShortcuts fs pairs capsuleName gameDir) := by
    obtain ⟨ys, hys⟩ := List.head?_eq_some_iff.mp h
    rw [hys]
    exact List.mem_cons_self _ _
  rw [List.mem_insertionSort] at hmem
  have hig : isIgnoredExe g.path = false := by
    by_cases hc : (findExeFromShortcuts fs pairs capsuleName gameDir).isEmpty
    · rw [if_pos hc] at hmem
      obtain ⟨a, _, hfa⟩ := List.mem_filterMap.mp hmem
      by_cases hcond : (fs.isFile a && isExeFile a && !isIgnoredExe a) = true
      · rw [if_pos hcond] at hfa
        injection hfa with hg
        have hpath : g.path = a := by rw [← hg]
        simp only [Bool.and_eq_true, Bool.not_eq_true'] at hcond
        rw [hpath]
        exact hcond.2
      · rw [if_neg hcond] at hfa
        exact Option.noConfusion hfa
    · rw [if_neg hc] at hmem
      obtain ⟨a, _, hfa⟩ := List.mem_filterMap.mp hmem
      by_cases hcond : (fs.isFile a.1 && isExeFile a.1 && !isIgnoredExe a.1) = true
      · rw [if_pos hcond] at hfa
        injection hfa with hg
        have hpath : g.path = a.1 := by rw [← hg]
        simp only [Bool.and_eq_true, Bool.not_eq_true'] at hcond
        rw [hpath]
        exact hcond.2
      · rw [if_neg hcond] at hfa
        exact Option.noConfusion hfa
  exact not_ignored_spec g.path hig

/-- Witness for the amended C5 at a concrete winning candidate. -/
theorem blocklist_c5_witness :
    lowerStr (fileName (ExecutableGuess.mk ["Games", "app.exe"] none 140).path) ≠
        "uninstall.exe" ∧
      strContains
          (lowerStr (fileName (ExecutableGuess.mk ["Games", "app.exe"] none 140).path))
          "vcredist" = false ∧
      ∀ comp ∈ (ExecutableGuess.mk ["Games", "app.exe"] none 140).path,
        eqIgnoreAsciiCase comp "system32" = false :=
  blocklist_c5_amended fsGame [] [["Games", "app.exe"]] "app" none
    ⟨["Games", "app.exe"], none, 140⟩ rfl

/-- Counterexample to C5 as stated: a candidate whose path contains vcredist
only in a directory component passes the blocklist and is returned as the
winning candidate. -/
theorem blocklist_c5_counterexample :
    guessExecutable fsVcredistDir [] [["vcredist", "app.exe"]] "app" none =
        some ⟨["vcredist", "app.exe"], none, -20⟩ ∧
      strContains (lowerStr (pathString ["vcredist", "app.exe"])) "vcredist" =
        true := by
  constructor <;> rfl

/-- Helper: an element surviving the seen-set retain step has a key outside
the seen set and is the first element of the input with its key. -/
theorem mem_dedupByKey (l : List UmuMatch) (seen : List (String × String × String))
    (m : UmuMatch) (h : m ∈ dedupByKey l seen) :
    seen.contains (umuKey m.entry) = false ∧
      l.find? (fun x => umuKey x.entry == umuKey m.entry) = some m := by
  induction l generalizing seen with
  | nil => cases h
  | cons x t ih =>
    unfold dedupByKey at h
    by_cases hx : seen.contains (umuKey x.entry) = true
    · rw [if_pos hx] at h
      obtain ⟨hns, hfind⟩ := ih seen h
      refine ⟨hns, ?_⟩
      rw [List.find?_cons_of_neg, hfind]
      intro hpx
      rw [beq_iff_eq] at hpx
      rw [← hpx] at hns
      rw [hx] at hns
      exact Bool.noConfusion hns
    · rw [if_neg hx] at h
      rcases List.mem_cons.mp h with rfl | hmem
      · have hxf : seen.contains (umuKey m.entry) = false := by
          simpa using hx
        refine ⟨hxf, ?_⟩
        rw [List.find?_cons_of_pos]
        simp
      · obtain ⟨hns, hfind⟩ := ih _ hmem
        simp only [List.contains_cons, Bool.or_eq_false_iff] at hns
        refine ⟨hns.2, ?_⟩
        rw [List.find?_cons_of_neg, hfind]
        intro hpx
        rw [beq_iff_eq] at hpx
        rw [hpx] at hns
        simp at hns

/-- Helper: the retain step leaves pairwise distinct keys. -/
theorem dedupByKey_keys_nodup (l : List UmuMatch)
    (seen : List (String × String × String)) :
    ((dedupByKey l seen).map (fun m => umuKey m.entry)).Nodup := by
  induction l generalizing seen with
  | nil => simp [dedupByKey]
  | cons x t ih =>
    unfold dedupByKey
    by_cases hx : seen.contains (umuKey x.entry) = true
    · rw [if_pos hx]
      exact ih seen
    · rw [if_neg hx]
      simp only [List.map_cons, List.nodup_cons]
      refine ⟨?_, ih _⟩
      intro hmemk
      obtain ⟨m, hm, hkey⟩ := List.mem_map.mp hmemk
      obtain ⟨hns, _⟩ := mem_dedupByKey _ _ _ hm
      simp only [List.contains_cons, Bool.or_eq_false_iff] at hns
      obtain ⟨hbe, _⟩ := hns
      rw [hkey] at hbe
      simp at hbe

/-- C7: the ranked catalog match list never holds two entries with the same
(catalog id, store, codename) triple, and every returned match is the first
scored match carrying its triple, so later duplicates are discarded even if
textually different. -/
theorem umu_dedup_c7 (loaded : Bool) (entries : List UmuEntry) (title : String) :
    ((findUmuMatches loaded entries title).map (fun m => umuKey m.entry)).Nodup ∧
      ∀ m ∈ findUmuMatches loaded entries title,
        (scoredMatches entries title).find?
            (fun x => umuKey x.entry == umuKey m.entry) = some m := by
  unfold findUmuMatches
  split_ifs with h1 h2
  · exact ⟨List.nodup_nil, fun m hm => absurd hm (List.not_mem_nil m)⟩
  · exact ⟨List.nodup_nil, fun m hm => absurd hm (List.not_mem_nil m)⟩
  dsimp only
  split_ifs with h3
  · rw [List.isEmpty_iff] at h3
    rw [h3]
    exact ⟨List.nodup_nil, fun m hm => absurd hm (List.not_mem_nil m)⟩
  · constructor
    · have hnd := dedupByKey_keys_nodup (scoredMatches entries title) []
      have hperm :=
        List.perm_insertionSort (fun a b => umuCmp a b ≠ Ordering.gt)
          (dedupByKey (scoredMatches entries title) [])
      have hnd2 := ((hperm.map (fun m => umuKey m.entry)).nodup_iff).mpr hnd
      rw [List.map_take]
      exact List.Nodup.sublist (List.take_sublist _ _) hnd2
    · intro m hm
      have hm2 := List.mem_of_mem_take hm
      rw [List.mem_insertionSort] at hm2
      exact (mem_dedupByKey _ _ _ hm2).2

/-- Witness for C7 at a concrete catalog. -/
theorem umu_dedup_c7_witness :
    (scoredMatches [entrySample] "x").find?
        (fun x => umuKey x.entry == umuKey (UmuMatch.mk entrySample 0).entry) =
      some (UmuMatch.mk entrySample 0) :=
  (umu_dedup_c7 true [entrySample] "x").2 ⟨entrySample, 0⟩ (by decide)

/-- Witness for C3 at a concrete already-installed release. -/
theorem install_existing_c3_witness :
    ("GE-Proton9-1" : String) = resolvedName archSample "GE-Proton9-1" ∧
      (installProtonGe netOneByte archSample "GE-Proton9-1" (some 1) false
          stInstalled).2.runtimes = stInstalled.runtimes :=
  (install_existing_c3 netOneByte archSample "GE-Proton9-1" 1 stInstalled 7
    "GE-Proton9-1" rfl).1 rfl

end LinuxBoy
